import Mathlib

/-!
Verification of the progression and state-persistence engine of the
RealLife quest-tracking application (src/App.tsx), as a shallow embedding.

The embedding translates the engine's functions directly from the source:
the level table and level functions (`levelTable`, `getLevel`,
`getLevelProgress`, `getXPToNextLevel`), the quest state machine
(`toggleQuestStep`, `handleQuestComplete`, `resetAllQuests`,
`resetDailyQuests`), the persistence coordinator (`validateUserData`,
`serializeUserData`, `applyUserData`), the durable store
(`Storage.getItem`, `Storage.setItem`) and the daily-reset scheduler
(`shouldResetDailyQuests`).  JavaScript numbers are modelled as `Int`
(or `Nat` where the source only ever holds non-negative counters),
percentages as `Rat`, JS `Set` as a duplicate-free insertion-ordered
list, and thrown/caught exceptions as `Except` values that the
modelled `try`/`catch` structure consumes.
-/

namespace RealLife

/-- A step of a main quest: `{ id, text, completed }` in the source. -/
structure Step where
  id : String
  text : String
  completed : Bool
deriving DecidableEq, Repr

/-- A main quest as held in the `mainQuests` state: `{ id, xp, category,
progress, steps, ... }`; display-only fields (title, description, icon,
color) are omitted. -/
structure Quest where
  id : String
  xp : Nat
  category : String
  progress : Nat
  steps : List Step
deriving DecidableEq, Repr

/-- A daily quest: `{ id, xp, completed, category, ... }`; display-only
fields (title, emoji, color) are omitted. -/
structure DailyQuest where
  id : Nat
  xp : Nat
  completed : Bool
  category : String
deriving DecidableEq, Repr

/-- The `userProfile` state: display-only fields (level, streak, mood,
moodText) are omitted; `totalXP` is the authoritative XP counter. -/
structure UserProfile where
  name : String
  avatar : String
  totalXP : Nat
deriving DecidableEq, Repr

/-- The live application state owned by the quest state machine:
`mainQuests`, `dailyQuests`, `completedQuests` (a JS `Set`, modelled as
a duplicate-free insertion-ordered list) and `lastResetDate`. -/
structure AppState where
  userProfile : UserProfile
  dailyQuests : List DailyQuest
  mainQuests : List Quest
  completedQuests : List String
  lastResetDate : String
deriving DecidableEq, Repr

/-- The 100-entry level table from the source (`levelTable`). -/
def levelTable : List Nat :=
  [500, 540, 583, 630, 680, 734, 793, 856, 924, 998,
   1079, 1166, 1259, 1359, 1468, 1585, 1712, 1849, 1997, 2157,
   2330, 2517, 2718, 2936, 3171, 3424, 3698, 3994, 4314, 4659,
   5032, 5434, 5869, 6338, 6845, 7393, 7984, 8623, 9313, 10058,
   10862, 11731, 12670, 13683, 14778, 15960, 17237, 18616, 20105, 21713,
   23450, 25326, 27352, 29540, 31903, 34455, 37211, 40188, 43403, 46875,
   50625, 54675, 59049, 63773, 68875, 74385, 80336, 86763, 93704, 101200,
   109296, 118040, 127483, 137682, 148696, 160592, 173439, 187314, 202299, 218483,
   235962, 254839, 275226, 297244, 321024, 346706, 374442, 404398, 436750, 471690,
   509425, 550180, 594194, 641730, 693068, 748514, 808395, 872667, 942480, 1017878]

/-- Cumulative cost of the first `n` table entries (the running
`totalXpNeeded` accumulator of the source loops). -/
def cumThrough (n : Nat) : Nat :=
  (levelTable.take n).sum

/-- The loop of `getLevel`: walk the remaining table entries `l` with
accumulator `acc` (sum of the first `i` entries); return `i + 1` at the
first entry where `xp < acc + c`, and the table length (reached as `i`)
when the loop runs out. -/
def getLevelGo (xp : Int) : Nat → Nat → List Nat → Nat
  | _, i, [] => i
  | acc, i, c :: rest =>
    if xp < ((acc + c : Nat) : Int) then i + 1 else getLevelGo xp (acc + c) (i + 1) rest

/-- `getLevel` from the source: walk `levelTable` accumulating costs and
return `i + 1` for the first index whose cumulative cost exceeds `xp`,
else the table length (100). -/
def getLevel (xp : Int) : Nat :=
  getLevelGo xp 0 0 levelTable

/-- `getLevelProgress` from the source: 100 at the level cap, otherwise
`min 100 ((xpInCurrentLevel / xpNeededForCurrentLevel) * 100)` where
`xpInCurrentLevel = xp - cumThrough (level - 1)` and
`xpNeededForCurrentLevel = levelTable[level - 1]`.  JS float division is
modelled as exact rational division. -/
def getLevelProgress (xp : Int) : Rat :=
  let currentLevel := getLevel xp
  if 100 ≤ currentLevel then 100
  else
    let totalXpForCurrentLevel := cumThrough (currentLevel - 1)
    let xpInCurrentLevel : Rat := (xp : Rat) - (totalXpForCurrentLevel : Rat)
    let xpNeededForCurrentLevel : Rat := (levelTable.getD (currentLevel - 1) 0 : Rat)
    min 100 (xpInCurrentLevel / xpNeededForCurrentLevel * 100)

/-- `getXPToNextLevel` from the source: 0 at the level cap, otherwise
`levelTable[currentLevel] - xp` (note: the table entry at index
`currentLevel`, with no accumulation of the earlier entries). -/
def getXPToNextLevel (xp : Int) : Int :=
  let currentLevel := getLevel xp
  if 100 ≤ currentLevel then 0
  else (levelTable.getD currentLevel 0 : Int) - xp

/-- Spec-side restatement of the level computation, written from the
specification's words: return `i + 1` for the first index `i` at which
the cumulative cost exceeds `xp`; if none is found, return 100 (the
table length).  Used only to compare with the source-derived
`getLevel`. -/
def levelSpec (xp : Int) : Nat :=
  match (List.range levelTable.length).find?
      (fun i => decide (xp < (cumThrough (i + 1) : Int))) with
  | some i => i + 1
  | none => levelTable.length

/-- Rounded percentage `Math.round((c / t) * 100)` as computed for a
quest's `progress`, in exact arithmetic: `Math.round(x)` is
`floor(x + 1/2)` for the non-negative `x` arising here.  (For `t = 0`
the JS source would produce `NaN`; no quest in the source data has zero
steps, and Lean's division-by-zero convention yields 0.) -/
def roundProgress (c t : Nat) : Nat :=
  (200 * c + t) / (2 * t)

/-- The per-step update inside `toggleQuestStep`'s map: a step whose id
matches `stepId` and which is not yet completed becomes completed. -/
def markOne (stepId : String) (st : Step) : Step :=
  if st.id == stepId && !st.completed then { st with completed := true } else st

/-- The step update inside `toggleQuestStep`: mark every step whose id
matches `stepId` and which is not yet completed as completed. -/
def markStep (stepId : String) (steps : List Step) : List Step :=
  steps.map (markOne stepId)

/-- Number of completed steps (`updatedSteps.filter(s => s.completed).length`). -/
def completedCount (steps : List Step) : Nat :=
  (steps.filter (fun st => st.completed)).length

/-- The `step && !step.completed` test of `toggleQuestStep`:
`quest.steps.find(s => s.id === stepId)` exists and is not completed. -/
def freshStep (stepId : String) (steps : List Step) : Bool :=
  match steps.find? (fun st => st.id == stepId) with
  | some st => !st.completed
  | none => false

/-- The completion bonus `quest.xp || 1000` (JS `||` falls back on the
falsy number 0). -/
def questBonus (quest : Quest) : Nat :=
  if quest.xp == 0 then 1000 else quest.xp

/-- JS `new Set(prev).add(x)`: append `x` unless already present. -/
def insertSet (l : List String) (x : String) : List String :=
  if x ∈ l then l else l ++ [x]

/-- The completion-bonus condition in `toggleQuestStep`: the toggled
step is fresh, the updated step count reaches the total, and the quest
id is not in the `completedQuests` snapshot taken when the handler ran. -/
def stepFires (snapshot : List String) (questId stepId : String) (quest : Quest) : Bool :=
  freshStep stepId quest.steps
    && (completedCount (markStep stepId quest.steps) == quest.steps.length)
    && !(snapshot.contains questId)

/-- The quest record returned for a matching quest:
`{ ...quest, steps: updatedSteps, progress }`. -/
def updateQuest (stepId : String) (quest : Quest) : Quest :=
  { quest with
    steps := markStep stepId quest.steps,
    progress := roundProgress (completedCount (markStep stepId quest.steps)) quest.steps.length }

/-- Result of folding `toggleQuestStep`'s map over the quest list:
the updated quests, the accumulated `completedQuests` and `totalXP`
updates, and the list of completion-bonus award events
`(questId, bonus)` emitted along the way. -/
structure ToggleAcc where
  quests : List Quest
  completedQuests : List String
  totalXP : Nat
  events : List (String × Nat)
deriving DecidableEq, Repr

/-- The body of `toggleQuestStep`: process the quest list in order.  A
matching quest gets its steps marked and progress recomputed; a fresh
step awards 30 XP, and when the update completes the quest while its id
is absent from the `completedQuests` snapshot, the id is added to the
set and the one-time bonus `quest.xp || 1000` is awarded (the source
adds it via a `setTimeout`, modelled as an immediate addition). -/
def toggleStepGo (questId stepId : String) (snapshot : List String) :
    List Quest → List String → Nat → ToggleAcc
  | [], cq, xp => ⟨[], cq, xp, []⟩
  | quest :: rest, cq, xp =>
    if quest.id == questId then
      let fires := stepFires snapshot questId stepId quest
      let cq1 := if fires then insertSet cq questId else cq
      let xp1 := if freshStep stepId quest.steps then xp + 30 else xp
      let xp2 := if fires then xp1 + questBonus quest else xp1
      let r := toggleStepGo questId stepId snapshot rest cq1 xp2
      ⟨updateQuest stepId quest :: r.quests, r.completedQuests, r.totalXP,
        (if fires then [(questId, questBonus quest)] else []) ++ r.events⟩
    else
      let r := toggleStepGo questId stepId snapshot rest cq xp
      ⟨quest :: r.quests, r.completedQuests, r.totalXP, r.events⟩

/-- `toggleQuestStep(questId, stepId)` from the source, as a state
transformer. -/
def toggleQuestStep (s : AppState) (questId stepId : String) : AppState :=
  let r := toggleStepGo questId stepId s.completedQuests s.mainQuests
            s.completedQuests s.userProfile.totalXP
  { s with
    mainQuests := r.quests,
    completedQuests := r.completedQuests,
    userProfile := { s.userProfile with totalXP := r.totalXP } }

/-- The completion-bonus award events emitted by one `toggleQuestStep`
call. -/
def toggleStepEvents (s : AppState) (questId stepId : String) : List (String × Nat) :=
  (toggleStepGo questId stepId s.completedQuests s.mainQuests
    s.completedQuests s.userProfile.totalXP).events

/-- The body of `handleQuestComplete` for daily quests: a matching,
not-yet-completed quest is marked completed and awards its `xp`. -/
def dailyGo (questId : Nat) : List DailyQuest → Nat → (List DailyQuest × Nat)
  | [], xp => ([], xp)
  | quest :: rest, xp =>
    if quest.id == questId && !quest.completed then
      let r := dailyGo questId rest (xp + quest.xp)
      ({ quest with completed := true } :: r.1, r.2)
    else
      let r := dailyGo questId rest xp
      (quest :: r.1, r.2)

/-- `handleQuestComplete(questId)` from the source, as a state
transformer. -/
def handleQuestComplete (s : AppState) (questId : Nat) : AppState :=
  let r := dailyGo questId s.dailyQuests s.userProfile.totalXP
  { s with
    dailyQuests := r.1,
    userProfile := { s.userProfile with totalXP := r.2 } }

/-- `resetAllQuests()` from the source: every main quest gets
`progress := 0` and all steps incomplete, and `completedQuests` is
cleared, in the one operation. -/
def resetAllQuests (s : AppState) : AppState :=
  { s with
    mainQuests := s.mainQuests.map (fun quest =>
      { quest with
        progress := 0,
        steps := quest.steps.map (fun st => { st with completed := false }) }),
    completedQuests := [] }

/-- `resetDailyQuests()` from the source: every daily quest is marked
incomplete and `lastResetDate` is set to the current date key. -/
def resetDailyQuests (s : AppState) (currentDate : String) : AppState :=
  { s with
    dailyQuests := s.dailyQuests.map (fun quest => { quest with completed := false }),
    lastResetDate := currentDate }

/-- `shouldResetDailyQuests` from the source, with the Kyiv-time date
key and hour of the current moment passed explicitly:
`lastResetDate !== currentDate && currentTime.getHours() >= 4`. -/
def shouldResetDailyQuests (lastResetDate currentDate : String) (hour : Nat) : Bool :=
  lastResetDate != currentDate && decide (4 ≤ hour)

/-- The `userProfile` slot of a persisted aggregate.  `totalXP` is
`none` when the stored field is missing or not a number (the
`typeof data.userProfile.totalXP !== 'number'` check of the source). -/
structure SavedProfile where
  name : String
  avatar : String
  totalXP : Option Nat
deriving DecidableEq, Repr

/-- The persisted aggregate built by `saveUserData` and consumed by
`loadUserData`.  An `Option` field is `none` when the key is missing
(JS objects and arrays are truthy whenever present, so the source's
`!data[field]` presence checks correspond to `isSome`).  Settings
flags, `version` and `savedAt` are display/metadata only and omitted. -/
structure Aggregate where
  userProfile : Option SavedProfile
  dailyQuests : Option (List DailyQuest)
  mainQuests : Option (List Quest)
  completedQuests : Option (List String)
  lastResetDate : Option String
deriving DecidableEq, Repr

/-- `validateUserData` from the source: the `userProfile`,
`dailyQuests` and `mainQuests` keys must be present and the profile's
`totalXP` must be a number. -/
def validateUserData (a : Aggregate) : Bool :=
  a.userProfile.isSome && a.dailyQuests.isSome && a.mainQuests.isSome &&
    (match a.userProfile with
     | some p => p.totalXP.isSome
     | none => false)

/-- The aggregate assembled by `saveUserData` from the live state
(`completedQuests: Array.from(completedQuests)` serializes the set in
insertion order). -/
def serializeUserData (s : AppState) : Aggregate :=
  { userProfile := some
      { name := s.userProfile.name,
        avatar := s.userProfile.avatar,
        totalXP := some s.userProfile.totalXP },
    dailyQuests := some s.dailyQuests,
    mainQuests := some s.mainQuests,
    completedQuests := some s.completedQuests,
    lastResetDate := some s.lastResetDate }

/-- JS `new Set(array)`: insert the elements in order, skipping
duplicates. -/
def setFromList (l : List String) : List String :=
  l.foldl insertSet []

/-- The reconcile phase of `loadUserData`: if validation fails nothing
is applied; otherwise each present field replaces the live value (the
`totalXP` fallback arm is unreachable because validation has checked
the field is a number; `lastResetDate` is applied only when truthy,
i.e. non-empty). -/
def applyUserData (a : Aggregate) (s : AppState) : AppState :=
  if validateUserData a then
    { userProfile :=
        match a.userProfile with
        | some p =>
          { name := p.name, avatar := p.avatar,
            totalXP := p.totalXP.getD s.userProfile.totalXP }
        | none => s.userProfile,
      dailyQuests := a.dailyQuests.getD s.dailyQuests,
      mainQuests := a.mainQuests.getD s.mainQuests,
      completedQuests :=
        match a.completedQuests with
        | some l => setFromList l
        | none => s.completedQuests,
      lastResetDate :=
        match a.lastResetDate with
        | some d => if d == "" then s.lastResetDate else d
        | none => s.lastResetDate }
  else s

/-- States reachable from `s0` through the public quest operations. -/
inductive Reachable (s0 : AppState) : AppState → Prop
  | refl : Reachable s0 s0
  | toggle (s : AppState) (questId stepId : String) :
      Reachable s0 s → Reachable s0 (toggleQuestStep s questId stepId)
  | daily (s : AppState) (questId : Nat) :
      Reachable s0 s → Reachable s0 (handleQuestComplete s questId)
  | resetAll (s : AppState) :
      Reachable s0 s → Reachable s0 (resetAllQuests s)
  | resetDaily (s : AppState) (currentDate : String) :
      Reachable s0 s → Reachable s0 (resetDailyQuests s currentDate)

/-- Which medium operations throw, for modelling the storage
`try`/`catch` structure (a medium that fails does so for every access
inside the relevant `try` block). -/
structure StoreEnv where
  lsReadFails : Bool
  ssReadFails : Bool
  lsWriteFails : Bool
  ssWriteFails : Bool
deriving DecidableEq, Repr

/-- JS truthiness of a lookup result: `null` and the empty string are
falsy. -/
def truthy : Option String → Bool
  | some s => s != ""
  | none => false

/-- One read from a medium: either the stored value or a thrown
exception. -/
def readStore (fails : Bool) (store : String → Option String) (key : String) :
    Except Unit (Option String) :=
  if fails then Except.error () else Except.ok (store key)

/-- The body of `Storage.getItem`'s single `try` block: localStorage
first, then the sessionStorage live copy, then the sessionStorage
backup copy.  Any thrown read propagates out of the whole block. -/
def getItemTry (env : StoreEnv) (ls ss : String → Option String) (key : String) :
    Except Unit (Option String) :=
  match readStore env.lsReadFails ls key with
  | Except.error e => Except.error e
  | Except.ok d =>
    if truthy d then Except.ok d
    else
      match readStore env.ssReadFails ss key with
      | Except.error e => Except.error e
      | Except.ok d2 =>
        if truthy d2 then Except.ok d2
        else
          match readStore env.ssReadFails ss (key ++ "_backup") with
          | Except.error e => Except.error e
          | Except.ok d3 => if truthy d3 then Except.ok d3 else Except.ok none

/-- `Storage.getItem` from the source: the `try` block above with its
`catch` returning `null`. -/
def getItem (env : StoreEnv) (ls ss : String → Option String) (key : String) :
    Option String :=
  match getItemTry env ls ss key with
  | Except.ok v => v
  | Except.error _ => none

/-- Point update of a key/value medium. -/
def update (store : String → Option String) (k v : String) : String → Option String :=
  fun k2 => if k2 == k then some v else store k2

/-- `Storage.setItem` from the source, returning the two media after
the call.  The `try` block writes the primary value, the secondary
backup copy, then the primary timestamp; mutations made before a throw
persist.  The `catch` falls back to a secondary live-copy write, whose
own failure is swallowed. -/
def setItem (env : StoreEnv) (ls ss : String → Option String)
    (key value now : String) :
    (String → Option String) × (String → Option String) :=
  if env.lsWriteFails then
    if env.ssWriteFails then (ls, ss) else (ls, update ss key value)
  else
    let ls1 := update ls key value
    if env.ssWriteFails then (ls1, ss)
    else (update ls1 (key ++ "_timestamp") now, update ss (key ++ "_backup") value)

/-! Helper lemmas about the set model and step marking. -/

lemma mem_insertSet (l : List String) (x a : String) :
    a ∈ insertSet l x ↔ a ∈ l ∨ a = x := by
  by_cases h : x ∈ l
  · simp only [insertSet, if_pos h]
    constructor
    · exact Or.inl
    · rintro (ha | rfl)
      · exact ha
      · exact h
  · simp [insertSet, if_neg h]

lemma nodup_insertSet (l : List String) (x : String) (h : l.Nodup) :
    (insertSet l x).Nodup := by
  by_cases hx : x ∈ l
  · simpa [insertSet, hx] using h
  · simp [insertSet, hx, List.nodup_append, h]

lemma markOne_id (sd : String) (st : Step) : (markOne sd st).id = st.id := by
  unfold markOne
  split <;> rfl

lemma markOne_completed (sd : String) (st : Step) :
    (markOne sd st).completed = (st.completed || (st.id == sd)) := by
  unfold markOne
  cases hid : st.id == sd <;> cases hc : st.completed <;> simp [hid, hc]

lemma markOne_of_ne (sd : String) (st : Step) (h : (st.id == sd) = false) :
    markOne sd st = st := by
  simp [markOne, h]

lemma markOne_of_completed (sd : String) (st : Step) (h : st.completed = true) :
    markOne sd st = st := by
  simp [markOne, h]

lemma markOne_markOne (sd : String) (st : Step) :
    markOne sd (markOne sd st) = markOne sd st := by
  unfold markOne
  cases hid : st.id == sd <;> cases hc : st.completed <;> simp [hid, hc]

lemma markStep_map_id (sd : String) (steps : List Step) :
    (markStep sd steps).map Step.id = steps.map Step.id := by
  unfold markStep
  rw [List.map_map]
  exact List.map_congr_left (fun st _ => markOne_id sd st)

lemma markStep_length (sd : String) (steps : List Step) :
    (markStep sd steps).length = steps.length := by
  simp [markStep]

lemma markStep_markStep (sd : String) (steps : List Step) :
    markStep sd (markStep sd steps) = markStep sd steps := by
  unfold markStep
  rw [List.map_map]
  exact List.map_congr_left (fun st _ => markOne_markOne sd st)

lemma markStep_congr_id (sd : String) (steps : List Step)
    (h : ∀ st ∈ steps, markOne sd st = st) : markStep sd steps = steps := by
  unfold markStep
  calc steps.map (markOne sd) = steps.map id := List.map_congr_left (fun a ha => h a ha)
  _ = steps := List.map_id steps

lemma markStep_of_no_match (sd : String) (steps : List Step)
    (h : ∀ st ∈ steps, (st.id == sd) = false) : markStep sd steps = steps :=
  markStep_congr_id sd steps (fun st hst => markOne_of_ne sd st (h st hst))

lemma freshStep_markStep (sd : String) (steps : List Step) :
    freshStep sd (markStep sd steps) = false := by
  unfold freshStep markStep
  rw [List.find?_map]
  have hpe : ((fun st : Step => st.id == sd) ∘ markOne sd) = (fun st : Step => st.id == sd) :=
    funext fun st => by simp only [Function.comp_apply, markOne_id]
  rw [hpe]
  cases hfind : steps.find? (fun st => st.id == sd) with
  | none => rfl
  | some st =>
    have hp := List.find?_some hfind
    simp [markOne_completed, hp]

lemma no_match_of_nodup_head (sd : String) (st : Step) (rest : List Step)
    (hnd : ((st :: rest).map Step.id).Nodup) (hid : st.id = sd) :
    ∀ x ∈ rest, (x.id == sd) = false := by
  intro x hx
  rw [List.map_cons] at hnd
  have h1 : st.id ∉ rest.map Step.id := (List.nodup_cons.mp hnd).1
  cases hxe : (x.id == sd) with
  | false => rfl
  | true =>
    have hx2 : x.id = sd := by simpa using hxe
    exact absurd (by rw [hid, ← hx2]; exact List.mem_map_of_mem Step.id hx) h1

lemma freshStep_nil (sd : String) : freshStep sd [] = false := rfl

lemma freshStep_cons_pos (sd : String) (st : Step) (rest : List Step)
    (hid : (st.id == sd) = true) :
    freshStep sd (st :: rest) = !st.completed := by
  unfold freshStep
  rw [List.find?_cons]
  simp [hid]

lemma freshStep_cons_neg (sd : String) (st : Step) (rest : List Step)
    (hid : (st.id == sd) = false) :
    freshStep sd (st :: rest) = freshStep sd rest := by
  unfold freshStep
  rw [List.find?_cons]
  simp [hid]

lemma markStep_of_not_fresh (sd : String) (steps : List Step)
    (hnd : (steps.map Step.id).Nodup) (h : freshStep sd steps = false) :
    markStep sd steps = steps := by
  induction steps with
  | nil => rfl
  | cons st rest ih =>
    cases hid : (st.id == sd) with
    | true =>
      have hc : st.completed = true := by
        have := freshStep_cons_pos sd st rest hid ▸ h
        simpa using this
      have hrest : markStep sd rest = rest :=
        markStep_of_no_match sd rest
          (no_match_of_nodup_head sd st rest hnd (by simpa using hid))
      show markOne sd st :: markStep sd rest = st :: rest
      rw [markOne_of_completed sd st hc, hrest]
    | false =>
      have hfr : freshStep sd rest = false := freshStep_cons_neg sd st rest hid ▸ h
      have hrest : markStep sd rest = rest := by
        rw [List.map_cons] at hnd
        exact ih (List.Nodup.of_cons hnd) hfr
      show markOne sd st :: markStep sd rest = st :: rest
      rw [markOne_of_ne sd st hid, hrest]

lemma completedCount_nil : completedCount [] = 0 := rfl

lemma completedCount_cons (st : Step) (rest : List Step) :
    completedCount (st :: rest) = (if st.completed then 1 else 0) + completedCount rest := by
  by_cases h : st.completed = true
  · simp [completedCount, List.filter, h, Nat.add_comm]
  · simp [completedCount, List.filter, h]

lemma completedCount_le_length (steps : List Step) :
    completedCount steps ≤ steps.length :=
  List.length_filter_le _ _

lemma completedCount_markStep_fresh (sd : String) (steps : List Step)
    (hnd : (steps.map Step.id).Nodup) (h : freshStep sd steps = true) :
    completedCount (markStep sd steps) = completedCount steps + 1 := by
  induction steps with
  | nil => exact absurd h (by simp [freshStep_nil])
  | cons st rest ih =>
    cases hid : (st.id == sd) with
    | true =>
      have hc : st.completed = false := by
        have := freshStep_cons_pos sd st rest hid ▸ h
        simpa using this
      have hrest : markStep sd rest = rest :=
        markStep_of_no_match sd rest
          (no_match_of_nodup_head sd st rest hnd (by simpa using hid))
      have hone : markOne sd st = { st with completed := true } := by
        simp [markOne, hid, hc]
      show completedCount (markOne sd st :: markStep sd rest) = _
      rw [hone, hrest, completedCount_cons, completedCount_cons]
      simp [hc]
      omega
    | false =>
      have hfr : freshStep sd rest = true := freshStep_cons_neg sd st rest hid ▸ h
      rw [List.map_cons] at hnd
      have hr := ih (List.Nodup.of_cons hnd) hfr
      show completedCount (markOne sd st :: markStep sd rest) = _
      rw [markOne_of_ne sd st hid, completedCount_cons, completedCount_cons, hr]
      omega


/-! Lemmas about toggleQuestStep's fold. -/

lemma updateQuest_id (sd : String) (quest : Quest) : (updateQuest sd quest).id = quest.id := rfl

lemma updateQuest_idem (sd : String) (quest : Quest) :
    updateQuest sd (updateQuest sd quest) = updateQuest sd quest := by
  simp [updateQuest, markStep_markStep, markStep_length]

lemma stepFires_updateQuest (ss2 : List String) (qd sd : String) (quest : Quest) :
    stepFires ss2 qd sd (updateQuest sd quest) = false := by
  have h : (updateQuest sd quest).steps = markStep sd quest.steps := rfl
  simp [stepFires, h, freshStep_markStep]

lemma stepFires_of_not_fresh (ss : List String) (qd sd : String) (quest : Quest)
    (h : freshStep sd quest.steps = false) : stepFires ss qd sd quest = false := by
  simp [stepFires, h]

lemma updateQuest_of_not_fresh (sd : String) (quest : Quest)
    (hnd : (quest.steps.map Step.id).Nodup)
    (hpr : quest.progress = roundProgress (completedCount quest.steps) quest.steps.length)
    (hfr : freshStep sd quest.steps = false) :
    updateQuest sd quest = quest := by
  have hsteps := markStep_of_not_fresh sd quest.steps hnd hfr
  unfold updateQuest
  rw [hsteps, ← hpr]

lemma toggleStepGo_no_match (qd sd : String) (ss : List String) (l : List Quest)
    (h : ∀ q ∈ l, (q.id == qd) = false) :
    ∀ cq xp, toggleStepGo qd sd ss l cq xp = ⟨l, cq, xp, []⟩ := by
  induction l with
  | nil => intro cq xp; rfl
  | cons quest rest ih =>
    intro cq xp
    have h1 := h quest (List.mem_cons_self quest rest)
    have h2 : ∀ q ∈ rest, (q.id == qd) = false :=
      fun q hq => h q (List.mem_cons_of_mem quest hq)
    simp [toggleStepGo, h1, ih h2]

lemma toggleStepGo_map_id (qd sd : String) (ss : List String) (l : List Quest) :
    ∀ cq xp, (toggleStepGo qd sd ss l cq xp).quests.map Quest.id = l.map Quest.id := by
  induction l with
  | nil => intro cq xp; rfl
  | cons quest rest ih =>
    intro cq xp
    cases hq : (quest.id == qd) with
    | true => simp [toggleStepGo, hq, updateQuest_id, ih]
    | false => simp [toggleStepGo, hq, ih]

lemma toggleStepGo_cq_nodup (qd sd : String) (ss : List String) (l : List Quest) :
    ∀ cq xp, cq.Nodup → (toggleStepGo qd sd ss l cq xp).completedQuests.Nodup := by
  induction l with
  | nil => intro cq xp h; exact h
  | cons quest rest ih =>
    intro cq xp h
    cases hq : (quest.id == qd) with
    | true =>
      cases hf : stepFires ss qd sd quest with
      | true => simpa [toggleStepGo, hq, hf] using ih _ _ (nodup_insertSet cq qd h)
      | false => simpa [toggleStepGo, hq, hf] using ih _ _ h
    | false => simpa [toggleStepGo, hq] using ih _ _ h

lemma toggleStepGo_cq_mem (qd sd : String) (ss : List String) (l : List Quest) (a : String) :
    ∀ cq xp, a ∈ (toggleStepGo qd sd ss l cq xp).completedQuests ↔
      a ∈ cq ∨ (a = qd ∧ (toggleStepGo qd sd ss l cq xp).events ≠ []) := by
  induction l with
  | nil => intro cq xp; simp [toggleStepGo]
  | cons quest rest ih =>
    intro cq xp
    cases hq : (quest.id == qd) with
    | true =>
      cases hf : stepFires ss qd sd quest with
      | true =>
        simp only [toggleStepGo, hq, hf]
        simp only [if_true, Bool.true_eq_false, reduceIte]
        rw [ih]
        simp [mem_insertSet]
        tauto
      | false =>
        simp only [toggleStepGo, hq, hf]
        simp only [if_true, Bool.false_eq_true, reduceIte]
        rw [ih]
        simp
    | false =>
      simp only [toggleStepGo, hq]
      simp only [Bool.false_eq_true, reduceIte]
      rw [ih]

lemma toggleStepGo_events_fst (qd sd : String) (ss : List String) (l : List Quest) :
    ∀ cq xp ev, ev ∈ (toggleStepGo qd sd ss l cq xp).events → ev.1 = qd := by
  induction l with
  | nil => intro cq xp ev h; simp [toggleStepGo] at h
  | cons quest rest ih =>
    intro cq xp ev h
    cases hq : (quest.id == qd) with
    | true =>
      cases hf : stepFires ss qd sd quest with
      | true =>
        simp only [toggleStepGo, hq, hf] at h
        simp at h
        rcases h with h | h
        · rw [h]
        · exact ih _ _ ev (by simpa using h)
      | false =>
        simp only [toggleStepGo, hq, hf] at h
        simp at h
        exact ih _ _ ev (by simpa using h)
    | false =>
      simp only [toggleStepGo, hq] at h
      simp at h
      exact ih _ _ ev (by simpa using h)

lemma toggleStepGo_events_ne_iff (qd sd : String) (ss : List String) (l : List Quest) :
    ∀ cq xp, (toggleStepGo qd sd ss l cq xp).events ≠ [] ↔
      ∃ q, q ∈ l ∧ (q.id == qd) = true ∧ stepFires ss qd sd q = true := by
  induction l with
  | nil => intro cq xp; simp [toggleStepGo]
  | cons quest rest ih =>
    intro cq xp
    cases hq : (quest.id == qd) with
    | true =>
      cases hf : stepFires ss qd sd quest with
      | true =>
        simp only [toggleStepGo, hq, hf]
        constructor
        · intro _; exact ⟨quest, List.mem_cons_self quest rest, hq, hf⟩
        · intro _; simp
      | false =>
        simp only [toggleStepGo, hq, hf]
        simp only [Bool.false_eq_true, reduceIte, List.nil_append]
        rw [ih]
        constructor
        · rintro ⟨q, hmem, h1, h2⟩
          exact ⟨q, List.mem_cons_of_mem quest hmem, h1, h2⟩
        · rintro ⟨q, hmem, h1, h2⟩
          rcases List.mem_cons.mp hmem with rfl | hmem2
          · rw [hf] at h2; exact absurd h2 (by simp)
          · exact ⟨q, hmem2, h1, h2⟩
    | false =>
      simp only [toggleStepGo, hq]
      simp only [Bool.false_eq_true, reduceIte]
      rw [ih]
      constructor
      · rintro ⟨q, hmem, h1, h2⟩
        exact ⟨q, List.mem_cons_of_mem quest hmem, h1, h2⟩
      · rintro ⟨q, hmem, h1, h2⟩
        rcases List.mem_cons.mp hmem with rfl | hmem2
        · rw [hq] at h1; exact absurd h1 (by simp)
        · exact ⟨q, hmem2, h1, h2⟩

lemma toggleStepGo_events_single (qd sd : String) (ss : List String) (l : List Quest)
    (hnd : (l.map Quest.id).Nodup) (q : Quest) (hq : q ∈ l) (hid : (q.id == qd) = true)
    (hf : stepFires ss qd sd q = true) :
    ∀ cq xp, (toggleStepGo qd sd ss l cq xp).events = [(qd, questBonus q)] := by
  induction l with
  | nil => exact absurd hq (List.not_mem_nil q)
  | cons quest rest ih =>
    intro cq xp
    rw [List.map_cons] at hnd
    rcases List.mem_cons.mp hq with rfl | hq2
    · have hrest : ∀ x ∈ rest, (x.id == qd) = false := by
        intro x hx
        have h1 : q.id ∉ rest.map Quest.id := (List.nodup_cons.mp hnd).1
        cases hxe : (x.id == qd) with
        | false => rfl
        | true =>
          have hx2 : x.id = qd := by simpa using hxe
          have hq2 : q.id = qd := by simpa using hid
          exact absurd (by rw [hq2, ← hx2]; exact List.mem_map_of_mem Quest.id hx) h1
      have hnil := toggleStepGo_no_match qd sd ss rest hrest
      simp [toggleStepGo, hid, hf, hnil]
    · cases hq3 : (quest.id == qd) with
      | true =>
        have h1 : quest.id ∉ rest.map Quest.id := (List.nodup_cons.mp hnd).1
        have hqid : q.id = qd := by simpa using hid
        have hquestid : quest.id = qd := by simpa using hq3
        exact absurd (by rw [hquestid, ← hqid]; exact List.mem_map_of_mem Quest.id hq2) h1
      | false =>
        have := ih (List.Nodup.of_cons hnd) hq2
        simp [toggleStepGo, hq3, this]

lemma toggleStepGo_idem (qd sd : String) (ss ss2 : List String) (l : List Quest) :
    ∀ cq xp cq2 xp2,
      toggleStepGo qd sd ss2 (toggleStepGo qd sd ss l cq xp).quests cq2 xp2 =
        ⟨(toggleStepGo qd sd ss l cq xp).quests, cq2, xp2, []⟩ := by
  induction l with
  | nil => intro cq xp cq2 xp2; rfl
  | cons quest rest ih =>
    intro cq xp cq2 xp2
    cases hq : (quest.id == qd) with
    | true =>
      have hq2 : ((updateQuest sd quest).id == qd) = true := by
        rw [updateQuest_id]; exact hq
      have hfr : freshStep sd (updateQuest sd quest).steps = false := by
        have h : (updateQuest sd quest).steps = markStep sd quest.steps := rfl
        rw [h]; exact freshStep_markStep sd quest.steps
      simp only [toggleStepGo, hq, if_true]
      simp only [toggleStepGo, hq2]
      simp [stepFires_updateQuest, hfr, updateQuest_idem, ih]
    | false =>
      simp [toggleStepGo, hq, ih]

lemma toggleStepGo_noop (qd sd : String) (ss : List String) (l : List Quest)
    (hq1 : ∀ q ∈ l, (q.id == qd) = true → (q.steps.map Step.id).Nodup)
    (hq2 : ∀ q ∈ l, (q.id == qd) = true →
      q.progress = roundProgress (completedCount q.steps) q.steps.length)
    (hfr : ∀ q ∈ l, (q.id == qd) = true → freshStep sd q.steps = false) :
    ∀ cq xp, toggleStepGo qd sd ss l cq xp = ⟨l, cq, xp, []⟩ := by
  induction l with
  | nil => intro cq xp; rfl
  | cons quest rest ih =>
    intro cq xp
    have ihr := ih (fun q hq => hq1 q (List.mem_cons_of_mem quest hq))
      (fun q hq => hq2 q (List.mem_cons_of_mem quest hq))
      (fun q hq => hfr q (List.mem_cons_of_mem quest hq))
    cases hq : (quest.id == qd) with
    | true =>
      have hm := List.mem_cons_self quest rest
      have hfr1 := hfr quest hm hq
      have hup := updateQuest_of_not_fresh sd quest (hq1 quest hm hq) (hq2 quest hm hq) hfr1
      simp [toggleStepGo, hq, stepFires_of_not_fresh ss qd sd quest hfr1, hfr1, hup, ihr]
    | false =>
      simp [toggleStepGo, hq, ihr]


/-! AppState-level consequences for toggleQuestStep, and the trace of a
sequence of toggle calls. -/

lemma contains_eq_mem_str (l : List String) (a : String) : l.contains a = true ↔ a ∈ l := by
  simp [List.contains]

lemma stepFires_spec (ss : List String) (qd sd : String) (q : Quest)
    (hf : stepFires ss qd sd q = true) :
    freshStep sd q.steps = true ∧ completedCount (markStep sd q.steps) = q.steps.length ∧
      qd ∉ ss := by
  have h := hf
  simp only [stepFires, Bool.and_eq_true, Bool.not_eq_true'] at h
  exact ⟨h.1.1, by simpa using h.1.2, by simpa using h.2⟩

lemma stepFires_intro (ss : List String) (qd sd : String) (q : Quest)
    (h1 : freshStep sd q.steps = true)
    (h2 : completedCount (markStep sd q.steps) = q.steps.length)
    (h3 : qd ∉ ss) : stepFires ss qd sd q = true := by
  simp [stepFires, h1, h2]
  exact h3

lemma toggle_cq_mem (s : AppState) (qd sd a : String) :
    a ∈ (toggleQuestStep s qd sd).completedQuests ↔
      a ∈ s.completedQuests ∨ (a = qd ∧ toggleStepEvents s qd sd ≠ []) :=
  toggleStepGo_cq_mem qd sd s.completedQuests s.mainQuests a s.completedQuests
    s.userProfile.totalXP

lemma toggle_map_id (s : AppState) (qd sd : String) :
    (toggleQuestStep s qd sd).mainQuests.map Quest.id = s.mainQuests.map Quest.id :=
  toggleStepGo_map_id qd sd s.completedQuests s.mainQuests s.completedQuests
    s.userProfile.totalXP

lemma toggle_cq_nodup (s : AppState) (qd sd : String) (h : s.completedQuests.Nodup) :
    (toggleQuestStep s qd sd).completedQuests.Nodup :=
  toggleStepGo_cq_nodup qd sd s.completedQuests s.mainQuests s.completedQuests
    s.userProfile.totalXP h

lemma toggle_events_ne_iff (s : AppState) (qd sd : String) :
    toggleStepEvents s qd sd ≠ [] ↔
      ∃ q, q ∈ s.mainQuests ∧ (q.id == qd) = true ∧
        stepFires s.completedQuests qd sd q = true :=
  toggleStepGo_events_ne_iff qd sd s.completedQuests s.mainQuests s.completedQuests
    s.userProfile.totalXP

lemma toggle_events_single (s : AppState) (qd sd : String)
    (hids : (s.mainQuests.map Quest.id).Nodup) (q : Quest) (hq : q ∈ s.mainQuests)
    (hid : (q.id == qd) = true) (hf : stepFires s.completedQuests qd sd q = true) :
    toggleStepEvents s qd sd = [(qd, questBonus q)] :=
  toggleStepGo_events_single qd sd s.completedQuests s.mainQuests hids q hq hid hf
    s.completedQuests s.userProfile.totalXP

/-- The state after running a list of `toggleQuestStep` calls in order. -/
def runTrace : AppState → List (String × String) → AppState
  | s, [] => s
  | s, c :: rest => runTrace (toggleQuestStep s c.1 c.2) rest

/-- How many completion-bonus awards a single `toggleQuestStep` call
emits for quest id `qid`. -/
def callBonusCount (s : AppState) (qid qd sd : String) : Nat :=
  ((toggleStepEvents s qd sd).filter (fun ev => ev.1 == qid)).length

/-- How many completion-bonus awards a whole call trace emits for quest
id `qid`. -/
def traceBonusCount (qid : String) : AppState → List (String × String) → Nat
  | _, [] => 0
  | s, c :: rest =>
    callBonusCount s qid c.1 c.2 + traceBonusCount qid (toggleQuestStep s c.1 c.2) rest

lemma callBonusCount_eq (s : AppState) (qid qd sd : String)
    (hids : (s.mainQuests.map Quest.id).Nodup) :
    callBonusCount s qid qd sd =
      if qid ∈ (toggleQuestStep s qd sd).completedQuests ∧ qid ∉ s.completedQuests
      then 1 else 0 := by
  by_cases hqd : qd = qid
  · subst hqd
    cases hne : toggleStepEvents s qd sd with
    | nil =>
      have hmem : qd ∈ (toggleQuestStep s qd sd).completedQuests ↔ qd ∈ s.completedQuests := by
        rw [toggle_cq_mem]
        simp [hne]
      rw [if_neg (by rw [hmem]; tauto)]
      simp [callBonusCount, hne]
    | cons ev tl =>
      have hne2 : toggleStepEvents s qd sd ≠ [] := by rw [hne]; exact List.cons_ne_nil ev tl
      obtain ⟨q, hq, hid, hf⟩ := (toggle_events_ne_iff s qd sd).mp hne2
      have hsingle := toggle_events_single s qd sd hids q hq hid hf
      have hnotmem : qd ∉ s.completedQuests := (stepFires_spec _ _ _ _ hf).2.2
      have hmem : qd ∈ (toggleQuestStep s qd sd).completedQuests := by
        rw [toggle_cq_mem]
        exact Or.inr ⟨rfl, hne2⟩
      rw [if_pos ⟨hmem, hnotmem⟩]
      simp [callBonusCount, hsingle]
  · have hfst := toggleStepGo_events_fst qd sd s.completedQuests s.mainQuests
      s.completedQuests s.userProfile.totalXP
    have hmem : qid ∈ (toggleQuestStep s qd sd).completedQuests ↔ qid ∈ s.completedQuests := by
      rw [toggle_cq_mem]
      constructor
      · rintro (h | ⟨rfl, _⟩)
        · exact h
        · exact absurd rfl hqd
      · exact Or.inl
    rw [if_neg (by rw [hmem]; tauto)]
    have hfil : (toggleStepEvents s qd sd).filter (fun ev => ev.1 == qid) = [] := by
      rw [List.filter_eq_nil_iff]
      intro ev hev
      have := hfst ev hev
      simp [this]
      exact fun hcon => hqd hcon
    simp [callBonusCount, hfil]

lemma runTrace_mem_mono (qid : String) :
    ∀ (calls : List (String × String)) (s : AppState),
      qid ∈ s.completedQuests → qid ∈ (runTrace s calls).completedQuests := by
  intro calls
  induction calls with
  | nil => intro s h; exact h
  | cons c rest ih =>
    intro s h
    exact ih (toggleQuestStep s c.1 c.2) ((toggle_cq_mem s c.1 c.2 qid).mpr (Or.inl h))

lemma traceBonusCount_eq (qid : String) :
    ∀ (calls : List (String × String)) (s : AppState),
      (s.mainQuests.map Quest.id).Nodup →
      traceBonusCount qid s calls =
        if qid ∈ (runTrace s calls).completedQuests ∧ qid ∉ s.completedQuests
        then 1 else 0 := by
  intro calls
  induction calls with
  | nil =>
    intro s _
    rw [if_neg (by tauto)]
    rfl
  | cons c rest ih =>
    intro s hids
    have hids2 : ((toggleQuestStep s c.1 c.2).mainQuests.map Quest.id).Nodup := by
      rw [toggle_map_id]; exact hids
    have hrec := ih (toggleQuestStep s c.1 c.2) hids2
    have hcall := callBonusCount_eq s qid c.1 c.2 hids
    show callBonusCount s qid c.1 c.2 +
        traceBonusCount qid (toggleQuestStep s c.1 c.2) rest = _
    rw [hcall, hrec]
    by_cases h0 : qid ∈ s.completedQuests
    · have h1 : qid ∈ (toggleQuestStep s c.1 c.2).completedQuests :=
        (toggle_cq_mem s c.1 c.2 qid).mpr (Or.inl h0)
      have h2 : qid ∈ (runTrace (toggleQuestStep s c.1 c.2) rest).completedQuests :=
        runTrace_mem_mono qid rest _ h1
      rw [if_neg (by tauto), if_neg (by tauto), if_neg (by tauto)]
    · by_cases h1 : qid ∈ (toggleQuestStep s c.1 c.2).completedQuests
      · have h2 : qid ∈ (runTrace (toggleQuestStep s c.1 c.2) rest).completedQuests :=
          runTrace_mem_mono qid rest _ h1
        rw [if_pos ⟨h1, h0⟩, if_neg (by tauto), if_pos ⟨h2, h0⟩]
      · rw [if_neg (by tauto)]
        show 0 + _ = _
        rw [Nat.zero_add]
        by_cases h2 : qid ∈ (runTrace (toggleQuestStep s c.1 c.2) rest).completedQuests
        · rw [if_pos ⟨h2, h1⟩, if_pos ⟨h2, h0⟩]
        · rw [if_neg (by tauto), if_neg (by tauto)]


/-! Lemmas about the level computation. -/

lemma getLevelGo_ge (xp : Int) :
    ∀ (l : List Nat) (acc i : Nat), i ≤ getLevelGo xp acc i l := by
  intro l
  induction l with
  | nil => intro acc i; exact Nat.le_refl i
  | cons c rest ih =>
    intro acc i
    unfold getLevelGo
    by_cases hx : xp < ((acc + c : Nat) : Int)
    · rw [if_pos hx]; exact Nat.le_succ i
    · rw [if_neg hx]
      exact Nat.le_trans (Nat.le_succ i) (ih (acc + c) (i + 1))

lemma getLevelGo_le (xp : Int) :
    ∀ (l : List Nat) (acc i : Nat), getLevelGo xp acc i l ≤ i + l.length := by
  intro l
  induction l with
  | nil => intro acc i; simp [getLevelGo]
  | cons c rest ih =>
    intro acc i
    unfold getLevelGo
    by_cases hx : xp < ((acc + c : Nat) : Int)
    · rw [if_pos hx]; simp only [List.length_cons]; omega
    · rw [if_neg hx]
      have := ih (acc + c) (i + 1)
      simp only [List.length_cons]
      omega

lemma getLevelGo_pos (xp : Int) (c : Nat) (rest : List Nat) (acc i : Nat) :
    i + 1 ≤ getLevelGo xp acc i (c :: rest) := by
  unfold getLevelGo
  by_cases hx : xp < ((acc + c : Nat) : Int)
  · rw [if_pos hx]
  · rw [if_neg hx]
    exact getLevelGo_ge xp rest (acc + c) (i + 1)

lemma getLevelGo_mono (x y : Int) (h : x ≤ y) :
    ∀ (l : List Nat) (acc i : Nat), getLevelGo x acc i l ≤ getLevelGo y acc i l := by
  intro l
  induction l with
  | nil => intro acc i; exact Nat.le_refl _
  | cons c rest ih =>
    intro acc i
    by_cases hy : y < ((acc + c : Nat) : Int)
    · have hx : x < ((acc + c : Nat) : Int) := lt_of_le_of_lt h hy
      unfold getLevelGo
      rw [if_pos hx, if_pos hy]
    · by_cases hx : x < ((acc + c : Nat) : Int)
      · unfold getLevelGo
        rw [if_pos hx, if_neg hy]
        exact getLevelGo_ge y rest (acc + c) (i + 1)
      · unfold getLevelGo
        rw [if_neg hx, if_neg hy]
        exact ih (acc + c) (i + 1)

lemma getLevelGo_all (xp : Int) :
    ∀ (l : List Nat) (acc i : Nat), ((acc + l.sum : Nat) : Int) ≤ xp →
      getLevelGo xp acc i l = i + l.length := by
  intro l
  induction l with
  | nil => intro acc i _; simp [getLevelGo]
  | cons c rest ih =>
    intro acc i h
    have h1 : ((acc + c : Nat) : Int) ≤ xp := by
      have hnat : (acc + c) ≤ acc + (c :: rest).sum := by
        simp only [List.sum_cons]
        omega
      exact le_trans (by exact_mod_cast hnat) h
    have hx : ¬ xp < ((acc + c : Nat) : Int) := not_lt.mpr h1
    unfold getLevelGo
    rw [if_neg hx]
    have h2 : (((acc + c) + rest.sum : Nat) : Int) ≤ xp := by
      have hnat : ((acc + c) + rest.sum : Nat) = acc + (c :: rest).sum := by
        simp only [List.sum_cons]
        omega
      rw [hnat]
      exact h
    rw [ih (acc + c) (i + 1) h2]
    simp only [List.length_cons]
    omega

lemma cumThrough_mono (m n : Nat) (h : m ≤ n) : cumThrough m ≤ cumThrough n := by
  unfold cumThrough
  have h1 : levelTable.take m = (levelTable.take n).take m := by
    rw [List.take_take, Nat.min_eq_left h]
  rw [h1]
  conv_rhs => rw [← List.take_append_drop m (levelTable.take n)]
  rw [List.sum_append]
  exact Nat.le_add_right _ _

lemma getLevelGo_cum (xp : Int) :
    ∀ (l : List Nat) (acc i : Nat), acc = cumThrough i → levelTable.drop i = l →
      (acc : Int) ≤ xp → (cumThrough (getLevelGo xp acc i l - 1) : Int) ≤ xp := by
  intro l
  induction l with
  | nil =>
    intro acc i hacc hdrop hle
    have h1 : cumThrough (i - 1) ≤ cumThrough i := cumThrough_mono _ _ (Nat.sub_le i 1)
    calc (cumThrough (getLevelGo xp acc i [] - 1) : Int)
        = (cumThrough (i - 1) : Int) := rfl
    _ ≤ (cumThrough i : Int) := by exact_mod_cast h1
    _ = (acc : Int) := by rw [hacc]
    _ ≤ xp := hle
  | cons c rest ih =>
    intro acc i hacc hdrop hle
    by_cases hx : xp < ((acc + c : Nat) : Int)
    · unfold getLevelGo
      rw [if_pos hx]
      simp only [Nat.add_sub_cancel]
      rw [← hacc]
      exact hle
    · unfold getLevelGo
      rw [if_neg hx]
      apply ih (acc + c) (i + 1) ?_ ?_ (not_lt.mp hx)
      · have hget : levelTable[i]? = some c := by
          have h0 := List.getElem?_drop levelTable i 0
          rw [hdrop] at h0
          simpa using h0.symm
        rw [hacc]
        unfold cumThrough
        rw [List.take_succ, hget]
        simp
      · rw [← List.tail_drop, hdrop]
        rfl

lemma getLevelGo_eq_find (xp : Int) :
    ∀ (l : List Nat) (acc i : Nat),
      getLevelGo xp acc i l =
        (match (List.range l.length).find?
            (fun j => decide (xp < ((acc + (l.take (j + 1)).sum : Nat) : Int))) with
        | some j => i + j + 1
        | none => i + l.length) := by
  intro l
  induction l with
  | nil => intro acc i; simp [getLevelGo, List.range_zero]
  | cons c rest ih =>
    intro acc i
    rw [List.length_cons, List.range_succ_eq_map, List.find?_cons]
    by_cases hx : xp < ((acc + c : Nat) : Int)
    · have hp0 : decide (xp < ((acc + ((c :: rest).take (0 + 1)).sum : Nat) : Int)) = true := by
        simp only [List.take_succ_cons, List.take_zero, List.sum_cons, List.sum_nil]
        simpa using hx
      rw [hp0]
      unfold getLevelGo
      rw [if_pos hx]
    · have hp0 : decide (xp < ((acc + ((c :: rest).take (0 + 1)).sum : Nat) : Int)) = false := by
        simp only [List.take_succ_cons, List.take_zero, List.sum_cons, List.sum_nil]
        simpa using hx
      rw [hp0]
      unfold getLevelGo
      rw [if_neg hx, ih (acc + c) (i + 1)]
      rw [List.find?_map]
      have hcomp :
          ((fun j => decide (xp < ((acc + ((c :: rest).take (j + 1)).sum : Nat) : Int)))
              ∘ Nat.succ) =
            (fun j => decide (xp < (((acc + c) + (rest.take (j + 1)).sum : Nat) : Int))) := by
        funext j
        simp only [Function.comp_apply, Nat.succ_eq_add_one, List.take_succ_cons, List.sum_cons]
        congr 2
        omega
      rw [hcomp]
      cases hfind : (List.range rest.length).find?
          (fun j => decide (xp < (((acc + c) + (rest.take (j + 1)).sum : Nat) : Int))) with
      | none =>
        show i + 1 + rest.length = i + (rest.length + 1)
        omega
      | some j =>
        show i + 1 + j + 1 = i + (j + 1) + 1
        omega


lemma levelTable_length : levelTable.length = 100 := rfl

lemma getLevel_ge_one (xp : Int) : 1 ≤ getLevel xp := by
  unfold getLevel
  rw [show levelTable = 500 :: levelTable.tail from rfl]
  exact getLevelGo_pos xp 500 levelTable.tail 0 0

lemma getLevel_le_100 (xp : Int) : getLevel xp ≤ 100 := by
  have h := getLevelGo_le xp levelTable 0 0
  rw [levelTable_length] at h
  simpa using h

lemma getLevel_mono (x y : Int) (h : x ≤ y) : getLevel x ≤ getLevel y :=
  getLevelGo_mono x y h levelTable 0 0

lemma getLevel_eq_levelSpec (xp : Int) : getLevel xp = levelSpec xp := by
  unfold getLevel levelSpec
  rw [getLevelGo_eq_find]
  have hp : (fun j => decide (xp < ((0 + (levelTable.take (j + 1)).sum : Nat) : Int))) =
      (fun i => decide (xp < (cumThrough (i + 1) : Int))) := by
    funext j
    simp [cumThrough]
  rw [hp]
  cases hfind : (List.range levelTable.length).find?
      (fun i => decide (xp < (cumThrough (i + 1) : Int))) with
  | none => show 0 + levelTable.length = levelTable.length; omega
  | some j => show 0 + j + 1 = j + 1; omega

lemma getLevel_cum_le (xp : Int) (h : 0 ≤ xp) :
    (cumThrough (getLevel xp - 1) : Int) ≤ xp :=
  getLevelGo_cum xp levelTable 0 0 rfl rfl h

lemma getLevel_cap (xp : Int) (h : ((levelTable.sum : Nat) : Int) ≤ xp) : getLevel xp = 100 := by
  unfold getLevel
  rw [getLevelGo_all xp levelTable 0 0 (by simpa using h)]
  rfl

lemma getLevelProgress_cap (xp : Int) (h : 100 ≤ getLevel xp) : getLevelProgress xp = 100 := by
  simp only [getLevelProgress]
  rw [if_pos h]

lemma getLevelProgress_eq_of_lt (xp : Int) (h : getLevel xp < 100) :
    getLevelProgress xp =
      min 100 (((xp : Rat) - (cumThrough (getLevel xp - 1) : Rat)) /
        (levelTable.getD (getLevel xp - 1) 0 : Rat) * 100) := by
  simp only [getLevelProgress]
  rw [if_neg (by omega)]

lemma getLevelProgress_le_100 (xp : Int) : getLevelProgress xp ≤ 100 := by
  simp only [getLevelProgress]
  split
  · exact le_refl _
  · exact min_le_left _ _

lemma getLevelProgress_nonneg (xp : Int) (h : 0 ≤ xp) : 0 ≤ getLevelProgress xp := by
  by_cases hcap : 100 ≤ getLevel xp
  · rw [getLevelProgress_cap xp hcap]
    norm_num
  · rw [getLevelProgress_eq_of_lt xp (by omega)]
    apply le_min (by norm_num)
    apply mul_nonneg _ (by norm_num)
    apply div_nonneg
    · rw [sub_nonneg]
      have hc := getLevel_cum_le xp h
      exact_mod_cast hc
    · exact Nat.cast_nonneg _


/-! Claim theorems. -/

/-- C4: for every integer xp ≥ 0, `getLevel` walks the 100-entry table
accumulating costs and returns i+1 for the first index i at which the
cumulative cost exceeds xp (the `levelSpec` restatement), returning 100
when xp reaches or exceeds the table's total sum; consequently
1 ≤ level(xp) ≤ 100, level is non-decreasing, and with cost[0] = 500:
level(0) = 1, level(499) = 1, level(500) = 2. -/
theorem C4_getLevel_correct (xp a b : Int) (hxp : 0 ≤ xp) (hab : a ≤ b) :
    getLevel xp = levelSpec xp ∧
    1 ≤ getLevel xp ∧ getLevel xp ≤ 100 ∧
    getLevel a ≤ getLevel b ∧
    ((levelTable.sum : Int) ≤ xp → getLevel xp = 100) ∧
    levelTable.getD 0 0 = 500 ∧
    getLevel 0 = 1 ∧ getLevel 499 = 1 ∧ getLevel 500 = 2 :=
  ⟨getLevel_eq_levelSpec xp, getLevel_ge_one xp, getLevel_le_100 xp,
    getLevel_mono a b hab, fun h => getLevel_cap xp h, by decide,
    by decide, by decide, by decide⟩

/-- Witness for C4 at xp = 500, a = 3, b = 7. -/
theorem C4_getLevel_correct_witness :
    (0 : Int) ≤ 500 ∧ (3 : Int) ≤ 7 ∧
      (getLevel 500 = levelSpec 500 ∧
       1 ≤ getLevel 500 ∧ getLevel 500 ≤ 100 ∧
       getLevel 3 ≤ getLevel 7 ∧
       ((levelTable.sum : Int) ≤ 500 → getLevel 500 = 100) ∧
       levelTable.getD 0 0 = 500 ∧
       getLevel 0 = 1 ∧ getLevel 499 = 1 ∧ getLevel 500 = 2) :=
  ⟨by norm_num, by norm_num, C4_getLevel_correct 500 3 7 (by norm_num) (by norm_num)⟩

lemma getLevelProgress_250 : getLevelProgress 250 = 50 := by
  have h1 : getLevel 250 = 1 := by decide
  have h2 := getLevelProgress_eq_of_lt 250 (by rw [h1]; norm_num)
  rw [h1] at h2
  simp only [show (1 : Nat) - 1 = 0 from rfl] at h2
  rw [h2, show cumThrough 0 = 0 from rfl, show levelTable.getD 0 0 = 500 from by decide]
  norm_num [min_def]

lemma getLevelProgress_neg100 : getLevelProgress (-100) = -20 := by
  have h1 : getLevel (-100) = 1 := by decide
  have h2 := getLevelProgress_eq_of_lt (-100) (by rw [h1]; norm_num)
  rw [h1] at h2
  simp only [show (1 : Nat) - 1 = 0 from rfl] at h2
  rw [h2, show cumThrough 0 = 0 from rfl, show levelTable.getD 0 0 = 500 from by decide]
  norm_num [min_def]

/-- C5 counterexample: the claim asserts 0 ≤ levelProgressPercent(xp)
for every integer xp, but the source applies no lower clamp and the
value is negative for negative xp. -/
theorem C5_counterexample :
    getLevelProgress (-100) = -20 ∧ getLevelProgress (-100) < 0 := by
  refine ⟨getLevelProgress_neg100, ?_⟩
  rw [getLevelProgress_neg100]
  norm_num

/-- C5 (amended): for xp ≥ 0 the progress percentage lies in [0, 100];
the upper bound holds for every xp; the cap and min-formula cases are
as described; and levelProgressPercent(250) = 50. -/
theorem C5_progress_amended (xp y : Int) (hxp : 0 ≤ xp) :
    0 ≤ getLevelProgress xp ∧ getLevelProgress xp ≤ 100 ∧
    getLevelProgress y ≤ 100 ∧
    (100 ≤ getLevel xp → getLevelProgress xp = 100) ∧
    (getLevel xp < 100 →
      getLevelProgress xp =
        min 100 (((xp : Rat) - (cumThrough (getLevel xp - 1) : Rat)) /
          (levelTable.getD (getLevel xp - 1) 0 : Rat) * 100)) ∧
    getLevelProgress 250 = 50 :=
  ⟨getLevelProgress_nonneg xp hxp, getLevelProgress_le_100 xp, getLevelProgress_le_100 y,
    getLevelProgress_cap xp, getLevelProgress_eq_of_lt xp, getLevelProgress_250⟩

/-- Witness for the amended C5 at xp = 250, y = -100. -/
theorem C5_progress_amended_witness :
    (0 : Int) ≤ 250 ∧
      (0 ≤ getLevelProgress 250 ∧ getLevelProgress 250 ≤ 100 ∧
       getLevelProgress (-100) ≤ 100 ∧
       (100 ≤ getLevel 250 → getLevelProgress 250 = 100) ∧
       (getLevel 250 < 100 →
         getLevelProgress 250 =
           min 100 (((250 : Rat) - (cumThrough (getLevel 250 - 1) : Rat)) /
             (levelTable.getD (getLevel 250 - 1) 0 : Rat) * 100)) ∧
       getLevelProgress 250 = 50) :=
  ⟨by norm_num, C5_progress_amended 250 (-100) (by norm_num)⟩

/-- C6: the source's `getXPToNextLevel` returns `levelTable[level(xp)] - xp`
without accumulating earlier entries, so it disagrees with the XP
actually remaining to the next level boundary (e.g. 540 instead of 500
at xp = 0) and even goes negative (e.g. -17 at xp = 600, where the true
remainder is 440). -/
theorem C6_xpToNext_code_bug :
    getXPToNextLevel 0 = 540 ∧
    (cumThrough (getLevel 0) : Int) - 0 = 500 ∧
    getXPToNextLevel 600 = -17 ∧
    getLevel 600 = 2 ∧
    (cumThrough (getLevel 600) : Int) - 600 = 440 := by
  refine ⟨by decide, by decide, by decide, by decide, by decide⟩

/-- C10: `shouldResetDailyQuests` is true iff the date key of "now"
differs from `lastResetDate` and the hour is at least the 04:00
cutover, with the concrete 2024-01-01 / 2024-01-02 behaviour of the
claim. -/
theorem C10_scheduler (last cur d : String) (hour : Nat) :
    (shouldResetDailyQuests last cur hour = true ↔ (cur ≠ last ∧ 4 ≤ hour)) ∧
    shouldResetDailyQuests "2024-01-01" "2024-01-02" hour = decide (4 ≤ hour) ∧
    shouldResetDailyQuests d d hour = false := by
  refine ⟨?_, ?_, ?_⟩
  · simp only [shouldResetDailyQuests, Bool.and_eq_true, bne_iff_ne, decide_eq_true_eq]
    constructor
    · rintro ⟨h1, h2⟩; exact ⟨fun he => h1 he.symm, h2⟩
    · rintro ⟨h1, h2⟩; exact ⟨fun he => h1 he.symm, h2⟩
  · show (("2024-01-01" != "2024-01-02") && decide (4 ≤ hour)) = decide (4 ≤ hour)
    rw [show ("2024-01-01" != "2024-01-02") = true from by decide]
    exact Bool.true_and _
  · simp [shouldResetDailyQuests]

/-- C8: after `resetAllQuests`, every main quest has progress 0 and all
steps incomplete, and the CompletedQuestsSet ledger is empty; both
happen in the one operation, which also preserves the quest list's
ids. -/
theorem C8_reset (s : AppState) :
    (resetAllQuests s).completedQuests = [] ∧
    ((resetAllQuests s).mainQuests.all fun q =>
      (q.progress == 0) && q.steps.all (fun st => !st.completed)) = true ∧
    (resetAllQuests s).mainQuests.map Quest.id = s.mainQuests.map Quest.id := by
  refine ⟨rfl, ?_, ?_⟩
  · rw [List.all_eq_true]
    intro q hq
    obtain ⟨q0, _, rfl⟩ := List.mem_map.mp hq
    simp [List.all_eq_true]
  · simp [resetAllQuests]


/-! Persistence round-trip and validation claims. -/

lemma insertSet_append_of_not_mem (acc : List String) (x : String) (hx : x ∉ acc) :
    insertSet acc x = acc ++ [x] := by
  simp [insertSet, hx]

lemma foldl_insertSet_of_nodup :
    ∀ (l acc : List String), (acc ++ l).Nodup → l.foldl insertSet acc = acc ++ l := by
  intro l
  induction l with
  | nil => intro acc _; simp
  | cons x xs ih =>
    intro acc h
    have hx : x ∉ acc := by
      rw [List.nodup_append] at h
      exact fun hmem => h.2.2 hmem (List.mem_cons_self x xs)
    show xs.foldl insertSet (insertSet acc x) = acc ++ x :: xs
    rw [insertSet_append_of_not_mem acc x hx]
    rw [ih (acc ++ [x]) (by simpa using h)]
    simp

lemma setFromList_of_nodup (l : List String) (h : l.Nodup) : setFromList l = l := by
  unfold setFromList
  simpa using foldl_insertSet_of_nodup l [] (by simpa using h)

lemma reachable_cq_nodup (s0 s : AppState) (h0 : s0.completedQuests.Nodup)
    (hr : Reachable s0 s) : s.completedQuests.Nodup := by
  induction hr with
  | refl => exact h0
  | toggle s qd sd _ ih => exact toggle_cq_nodup s qd sd ih
  | daily s qid _ ih => exact ih
  | resetAll s _ _ => exact List.nodup_nil
  | resetDaily s d _ ih => exact ih

/-- C2: for every state reachable through the public quest operations,
the serialized aggregate validates, and applying it back (the reconcile
phase of `loadUserData`, on any live state) reproduces the original
`totalXP`, main-quest list (hence per-quest progress), completed-quest
set, and daily quests. -/
theorem C2_roundtrip (s0 s t : AppState) (h0 : s0.completedQuests.Nodup)
    (hr : Reachable s0 s) :
    validateUserData (serializeUserData s) = true ∧
    (applyUserData (serializeUserData s) t).userProfile.totalXP = s.userProfile.totalXP ∧
    (applyUserData (serializeUserData s) t).mainQuests = s.mainQuests ∧
    (applyUserData (serializeUserData s) t).mainQuests.map Quest.progress =
      s.mainQuests.map Quest.progress ∧
    (applyUserData (serializeUserData s) t).completedQuests = s.completedQuests ∧
    (applyUserData (serializeUserData s) t).dailyQuests = s.dailyQuests := by
  have hnd := reachable_cq_nodup s0 s h0 hr
  refine ⟨rfl, ?_, ?_, ?_, ?_, ?_⟩ <;>
    simp [applyUserData, serializeUserData, validateUserData,
      setFromList_of_nodup s.completedQuests hnd]

/-- A small concrete quest used by the witnesses. -/
def sampleQuest : Quest :=
  { id := "career-1", xp := 1000, category := "career", progress := 0,
    steps := [{ id := "c1-s1", text := "a", completed := false },
              { id := "c1-s2", text := "b", completed := false }] }

/-- A small concrete state used by the witnesses. -/
def sampleState : AppState :=
  { userProfile := { name := "Player", avatar := "a", totalXP := 0 },
    dailyQuests := [{ id := 1, xp := 100, completed := false, category := "morning" }],
    mainQuests := [sampleQuest],
    completedQuests := [],
    lastResetDate := "" }

/-- Witness for C2 at the sample state (reachable via refl). -/
theorem C2_roundtrip_witness :
    sampleState.completedQuests.Nodup ∧
      (validateUserData (serializeUserData sampleState) = true ∧
       (applyUserData (serializeUserData sampleState) sampleState).userProfile.totalXP =
         sampleState.userProfile.totalXP ∧
       (applyUserData (serializeUserData sampleState) sampleState).mainQuests =
         sampleState.mainQuests ∧
       (applyUserData (serializeUserData sampleState) sampleState).mainQuests.map
           Quest.progress = sampleState.mainQuests.map Quest.progress ∧
       (applyUserData (serializeUserData sampleState) sampleState).completedQuests =
         sampleState.completedQuests ∧
       (applyUserData (serializeUserData sampleState) sampleState).dailyQuests =
         sampleState.dailyQuests) :=
  ⟨by decide, C2_roundtrip sampleState sampleState sampleState (by decide) Reachable.refl⟩

/-- C9: `validateUserData` accepts exactly the aggregates with the
user-profile, daily-quest and main-quest keys present and a numeric
profile XP; when it rejects, the reconcile phase applies nothing, and
an aggregate missing the main-quest key is rejected. -/
theorem C9_validate (a : Aggregate) (s : AppState) :
    (validateUserData a = true ↔
      a.userProfile.isSome = true ∧ a.dailyQuests.isSome = true ∧
        a.mainQuests.isSome = true ∧
        (match a.userProfile with
         | some p => p.totalXP.isSome
         | none => false) = true) ∧
    (validateUserData a = false → applyUserData a s = s) ∧
    validateUserData { a with mainQuests := none } = false := by
  refine ⟨?_, ?_, ?_⟩
  · simp only [validateUserData, Bool.and_eq_true]
    tauto
  · intro h
    simp [applyUserData, h]
  · simp [validateUserData]

/-- An aggregate whose main-quest collection key is missing. -/
def aggMissingMain : Aggregate :=
  { userProfile := some { name := "Player", avatar := "a", totalXP := some 0 },
    dailyQuests := some [],
    mainQuests := none,
    completedQuests := none,
    lastResetDate := none }

/-- Witness for C9: the aggregate missing the main-quest key fails
validation and leaves the live state untouched. -/
theorem C9_validate_witness :
    validateUserData aggMissingMain = false ∧
      applyUserData aggMissingMain sampleState = sampleState :=
  ⟨by decide, (C9_validate aggMissingMain sampleState).2.1 (by decide)⟩


/-! Durable-store claim. -/

/-- C3 counterexample environment: the primary medium's reads throw. -/
def lsFailEnv : StoreEnv :=
  { lsReadFails := true, ssReadFails := false, lsWriteFails := false, ssWriteFails := false }

/-- An empty medium. -/
def emptyStore : String → Option String := fun _ => none

/-- A secondary medium holding a live copy of the aggregate key. -/
def backupStore : String → Option String :=
  fun k => if k == "userProgressData" then some "saved" else none

/-- C3 counterexample: with a throwing primary read and the value
present in the secondary medium's live copy, `Storage.getItem` returns
absent instead of falling back — the single try/catch aborts the whole
chain, contradicting the claim that a read failure on one medium never
prevents attempting the next. -/
theorem C3_counterexample :
    getItem lsFailEnv emptyStore backupStore "userProgressData" = none ∧
    truthy (backupStore "userProgressData") = true ∧
    lsFailEnv.ssReadFails = false := by
  refine ⟨rfl, by decide, rfl⟩

/-- C3 (amended): `Storage.getItem` prefers the primary medium, falling
back to the secondary live copy and then the secondary backup copy when
a lookup result is falsy, and returns absent when all three miss; all
failures are caught (the functions are total), and a failed primary
write falls back to a secondary live-copy write — but a thrown read
aborts the whole lookup and returns absent without attempting the
remaining media. -/
theorem C3_store_amended (env : StoreEnv) (ls ss : String → Option String)
    (key value now : String) :
    getItem env ls ss key =
      (if env.lsReadFails then none
       else if truthy (ls key) then ls key
       else if env.ssReadFails then none
       else if truthy (ss key) then ss key
       else if truthy (ss (key ++ "_backup")) then ss (key ++ "_backup")
       else none) ∧
    (env.lsWriteFails = false → env.ssWriteFails = false →
      setItem env ls ss key value now =
        (update (update ls key value) (key ++ "_timestamp") now,
         update ss (key ++ "_backup") value)) ∧
    (env.lsWriteFails = false → env.ssWriteFails = true →
      setItem env ls ss key value now = (update ls key value, ss)) ∧
    (env.lsWriteFails = true → env.ssWriteFails = false →
      setItem env ls ss key value now = (ls, update ss key value)) ∧
    (env.lsWriteFails = true → env.ssWriteFails = true →
      setItem env ls ss key value now = (ls, ss)) := by
  obtain ⟨lr, sr, lw, sw⟩ := env
  refine ⟨?_, ?_, ?_, ?_, ?_⟩
  · simp only [getItem, getItemTry, readStore]
    cases lr <;> cases sr <;>
      by_cases h1 : truthy (ls key) <;>
      by_cases h2 : truthy (ss key) <;>
      by_cases h3 : truthy (ss (key ++ "_backup")) <;>
      simp [h1, h2, h3]
  · intro h1 h2
    simp at h1 h2
    subst h1; subst h2
    simp [setItem]
  · intro h1 h2
    simp at h1
    subst h1; subst h2
    simp [setItem]
  · intro h1 h2
    simp at h2
    subst h1; subst h2
    simp [setItem]
  · intro h1 h2
    subst h1; subst h2
    simp [setItem]

/-- An environment in which no medium fails. -/
def noFailEnv : StoreEnv :=
  { lsReadFails := false, ssReadFails := false, lsWriteFails := false, ssWriteFails := false }

/-- An environment in which only primary writes fail. -/
def lwFailEnv : StoreEnv :=
  { lsReadFails := false, ssReadFails := false, lsWriteFails := true, ssWriteFails := false }

/-- Witness for the amended C3, exercising the fallback chain and each
write-failure combination at concrete stores. -/
theorem C3_store_amended_witness :
    getItem lsFailEnv emptyStore backupStore "userProgressData" = none ∧
    getItem noFailEnv emptyStore backupStore "userProgressData" = some "saved" ∧
    setItem noFailEnv emptyStore emptyStore "k" "v" "t" =
      (update (update emptyStore "k" "v") ("k" ++ "_timestamp") "t",
       update emptyStore ("k" ++ "_backup") "v") ∧
    setItem lwFailEnv emptyStore emptyStore "k" "v" "t" =
      (emptyStore, update emptyStore "k" "v") := by
  refine ⟨?_, ?_, ?_, ?_⟩
  · have h := (C3_store_amended lsFailEnv emptyStore backupStore "userProgressData" "v" "t").1
    rw [h]
    rfl
  · have h := (C3_store_amended noFailEnv emptyStore backupStore "userProgressData" "v" "t").1
    rw [h]
    rfl
  · exact (C3_store_amended noFailEnv emptyStore emptyStore "k" "v" "t").2.1 rfl rfl
  · exact (C3_store_amended lwFailEnv emptyStore emptyStore "k" "v" "t").2.2.2.1 rfl rfl


/-! Idempotence and no-op claims for toggleQuestStep. -/

lemma toggle_of_go_eq (s : AppState) (qd sd : String)
    (h : toggleStepGo qd sd s.completedQuests s.mainQuests s.completedQuests
          s.userProfile.totalXP =
        ⟨s.mainQuests, s.completedQuests, s.userProfile.totalXP, []⟩) :
    toggleQuestStep s qd sd = s := by
  unfold toggleQuestStep
  rw [h]

/-- The silent no-op condition on a call: every quest matching the id
has the step unknown or already completed. -/
def noopCall (s : AppState) (qd sd : String) : Bool :=
  s.mainQuests.all fun quest => !(quest.id == qd) || !(freshStep sd quest.steps)

/-- Well-formedness of a quest record: step ids are unique within the
quest and the stored progress equals the recomputed one (the source
recomputes it on every toggle and stores 0 initially and on reset). -/
def QuestWF (q : Quest) : Prop :=
  (q.steps.map Step.id).Nodup ∧
  q.progress = roundProgress (completedCount q.steps) q.steps.length

instance (q : Quest) : Decidable (QuestWF q) := by
  unfold QuestWF
  infer_instance

/-- C7: toggling the same step twice changes state only once — the
second call is exactly a no-op; and any call whose quest id is unknown,
or whose matching quest has the step unknown or already completed,
leaves the whole state (steps, progress, CompletedQuestsSet, totalXP)
unchanged. -/
theorem C7_toggle_idempotent (s : AppState) (qd sd : String)
    (hwf : ∀ q ∈ s.mainQuests, QuestWF q) :
    toggleQuestStep (toggleQuestStep s qd sd) qd sd = toggleQuestStep s qd sd ∧
    (noopCall s qd sd = true → toggleQuestStep s qd sd = s) ∧
    ((∀ q ∈ s.mainQuests, q.id ≠ qd) → toggleQuestStep s qd sd = s) := by
  refine ⟨?_, ?_, ?_⟩
  · apply toggle_of_go_eq
    exact toggleStepGo_idem qd sd s.completedQuests
      (toggleQuestStep s qd sd).completedQuests s.mainQuests s.completedQuests
      s.userProfile.totalXP (toggleQuestStep s qd sd).completedQuests
      (toggleQuestStep s qd sd).userProfile.totalXP
  · intro hnoop
    apply toggle_of_go_eq
    apply toggleStepGo_noop qd sd s.completedQuests s.mainQuests
      (fun q hq _ => (hwf q hq).1) (fun q hq _ => (hwf q hq).2)
    intro q hq hid
    have h := List.all_eq_true.mp hnoop q hq
    rw [hid] at h
    simpa using h
  · intro hunk
    apply toggle_of_go_eq
    apply toggleStepGo_no_match qd sd s.completedQuests s.mainQuests
    intro q hq
    exact beq_eq_false_iff_ne.mpr (hunk q hq)

/-- Witness for C7 at the sample state with an unknown id. -/
theorem C7_toggle_idempotent_witness :
    (∀ q ∈ sampleState.mainQuests, QuestWF q) ∧
    noopCall sampleState "zz" "zz" = true ∧
    toggleQuestStep (toggleQuestStep sampleState "zz" "zz") "zz" "zz" =
      toggleQuestStep sampleState "zz" "zz" ∧
    toggleQuestStep sampleState "zz" "zz" = sampleState :=
  ⟨by decide, by decide,
   (C7_toggle_idempotent sampleState "zz" "zz" (by decide)).1,
   (C7_toggle_idempotent sampleState "zz" "zz" (by decide)).2.1 (by decide)⟩


/-- C1: across any sequence of toggleStep calls, the completion bonus
for a quest id is awarded exactly once — the award count over a trace
equals 1 precisely when the trace moves the id into
CompletedQuestsSet, so it is never more than 1 even under replays; a
single call emits the bonus exactly on the step transition that brings
the completed-step count to the total while the id is not yet in the
set, at which moment the id enters the set; and the emitted bonus is
`quest.xp` for the positive xpReward values of the source data. -/
theorem C1_bonus_exactly_once (s : AppState) (calls : List (String × String))
    (qid sd : String) (hids : (s.mainQuests.map Quest.id).Nodup) :
    traceBonusCount qid s calls =
      (if qid ∈ (runTrace s calls).completedQuests ∧ qid ∉ s.completedQuests
       then 1 else 0) ∧
    traceBonusCount qid s calls ≤ 1 ∧
    (toggleStepEvents s qid sd ≠ [] ↔
      ∃ q ∈ s.mainQuests, q.id = qid ∧ freshStep sd q.steps = true ∧
        completedCount (markStep sd q.steps) = q.steps.length ∧
        qid ∉ s.completedQuests) ∧
    (∀ q ∈ s.mainQuests, q.id = qid → freshStep sd q.steps = true →
      completedCount (markStep sd q.steps) = q.steps.length →
      qid ∉ s.completedQuests →
      toggleStepEvents s qid sd = [(qid, questBonus q)] ∧
        qid ∈ (toggleQuestStep s qid sd).completedQuests) ∧
    (∀ q : Quest, 0 < q.xp → questBonus q = q.xp) := by
  have hcount := traceBonusCount_eq qid calls s hids
  refine ⟨hcount, ?_, ?_, ?_, ?_⟩
  · rw [hcount]
    split <;> omega
  · rw [toggle_events_ne_iff]
    constructor
    · rintro ⟨q, hq, hid, hf⟩
      obtain ⟨h1, h2, h3⟩ := stepFires_spec _ _ _ _ hf
      exact ⟨q, hq, by simpa using hid, h1, h2, h3⟩
    · rintro ⟨q, hq, hid, h1, h2, h3⟩
      exact ⟨q, hq, by simpa using hid, stepFires_intro _ _ _ _ h1 h2 h3⟩
  · intro q hq hid h1 h2 h3
    have hf := stepFires_intro s.completedQuests qid sd q h1 h2 h3
    have hs := toggle_events_single s qid sd hids q hq (by simpa using hid) hf
    refine ⟨hs, ?_⟩
    rw [toggle_cq_mem]
    exact Or.inr ⟨rfl, by rw [hs]; exact List.cons_ne_nil _ _⟩
  · intro q hxp
    simp [questBonus, Nat.pos_iff_ne_zero.mp hxp]

/-- Witness for C1 at the sample state, with a trace that completes the
two-step quest and then replays the final toggle. -/
theorem C1_bonus_exactly_once_witness :
    (sampleState.mainQuests.map Quest.id).Nodup ∧
    (traceBonusCount "career-1" sampleState
        [("career-1", "c1-s1"), ("career-1", "c1-s2"), ("career-1", "c1-s2")] =
      (if "career-1" ∈ (runTrace sampleState
            [("career-1", "c1-s1"), ("career-1", "c1-s2"),
             ("career-1", "c1-s2")]).completedQuests ∧
          "career-1" ∉ sampleState.completedQuests
       then 1 else 0) ∧
     traceBonusCount "career-1" sampleState
        [("career-1", "c1-s1"), ("career-1", "c1-s2"), ("career-1", "c1-s2")] ≤ 1 ∧
     (toggleStepEvents sampleState "career-1" "c1-s2" ≠ [] ↔
       ∃ q ∈ sampleState.mainQuests, q.id = "career-1" ∧
         freshStep "c1-s2" q.steps = true ∧
         completedCount (markStep "c1-s2" q.steps) = q.steps.length ∧
         "career-1" ∉ sampleState.completedQuests) ∧
     (∀ q ∈ sampleState.mainQuests, q.id = "career-1" →
       freshStep "c1-s2" q.steps = true →
       completedCount (markStep "c1-s2" q.steps) = q.steps.length →
       "career-1" ∉ sampleState.completedQuests →
       toggleStepEvents sampleState "career-1" "c1-s2" =
           [("career-1", questBonus q)] ∧
         "career-1" ∈ (toggleQuestStep sampleState "career-1" "c1-s2").completedQuests) ∧
     (∀ q : Quest, 0 < q.xp → questBonus q = q.xp)) :=
  ⟨by decide,
   C1_bonus_exactly_once sampleState
     [("career-1", "c1-s1"), ("career-1", "c1-s2"), ("career-1", "c1-s2")]
     "career-1" "c1-s2" (by decide)⟩

end RealLife

